import Mathlib

/-
Verification of the DCF valuation engine in src/utils/dcf_calc.py.

Modelling conventions:
- IEEE doubles are modelled by the rationals; a non-finite float (nan or inf)
  is modelled by the value none of Option.
- numpy random draws are modelled by explicit per-trial draw functions: each
  field of Draws is the array of sampled values that numpy would have produced
  (e.g. coreW i is the value of np.random.normal(loc=base_wacc, scale=0.01)[i]).
  All theorems about the Monte Carlo resolution quantify over arbitrary draws.
- Python exceptions are modelled by Except: ValueError raised by _validate_inputs
  becomes Err.validation, and the runtime TypeError raised when the scalar nan
  assigned to per_share (line 308) is indexed in the details loop (line 322)
  becomes Err.typeError.
-/

namespace Finsense

/-- Error kinds raised by the engine, per the validation taxonomy of the spec. -/
inductive ValidationKind where
  | invalidHorizon
  | waccNotGreaterThanTerminalGrowth
  | negativeRate
deriving DecidableEq

/-- A python exception escaping calculate_dcf_valuation: either a ValueError
from _validate_inputs, or the runtime type fault in _monte_carlo_vectorized
when per_share is the scalar nan (see monteCarloVectorized below). -/
inductive Err where
  | validation (k : ValidationKind)
  | typeError
deriving DecidableEq

/-- CapitalBridge dataclass (src/utils/dcf_calc.py lines 18-24). -/
structure CapitalBridge where
  net_debt : ℚ := 0
  non_operating_assets : ℚ := 0
  minority_interest : ℚ := 0
  other_adjustments : ℚ := 0
deriving DecidableEq

/-- np.clip on a scalar: min(max(x, lo), hi). -/
def clip (x lo hi : ℚ) : ℚ := min (max x lo) hi

/-- The _validate_inputs method (lines 160-168): three sequential checks, each
raising ValueError, modelled as an else-if chain since raise exits. -/
def validateInputs (wacc tg : ℚ) (years : ℤ) : Except Err Unit :=
  if years < 3 ∨ years > 10 then .error (.validation .invalidHorizon)
  else if wacc ≤ tg then .error (.validation .waccNotGreaterThanTerminalGrowth)
  else if wacc < 0 ∨ tg < 0 then .error (.validation .negativeRate)
  else .ok ()

/-- The _pick_base_fcf method (lines 170-180). -/
def pickBaseFcf (fcfHistory : List ℚ) : ℚ :=
  match fcfHistory.getLast? with
  | none => 1000000000
  | some mostRecent =>
    if 0 < mostRecent then mostRecent
    else
      match (fcfHistory.filter (fun x => 0 < x)).maximum with
      | none => 1000000000
      | some m => m

/-- The _project_fcf method (lines 182-184): base * (1+g)^t for t = 1..years. -/
def projectFcf (baseFcf g : ℚ) (years : ℕ) : List ℚ :=
  (List.range years).map (fun k => baseFcf * (1 + g) ^ (k + 1))

/-- Helper for _pv_series: discounts cashflows starting at year t. -/
def pvSeriesFrom (rate : ℚ) : ℕ → List ℚ → List ℚ
  | _, [] => []
  | t, c :: cs => c / (1 + rate) ^ t :: pvSeriesFrom rate (t + 1) cs

/-- The _pv_series method (lines 186-188): cashflows / (1+rate)^t, t = 1..size.
In every validated call rate is greater than -1, so no division by zero occurs. -/
def pvSeries (cashflows : List ℚ) (rate : ℚ) : List ℚ :=
  pvSeriesFrom rate 1 cashflows

/-- The _terminal_value method (lines 190-193), including its defensive clip of
tg to wacc - 1e-6 when wacc is not above tg. -/
def terminalValue (lastFcf wacc tg : ℚ) : ℚ :=
  let tg2 := if wacc ≤ tg then min tg (wacc - 1 / 1000000) else tg
  lastFcf * (1 + tg2) / (wacc - tg2)

/-- The _shares_path method (lines 195-196). -/
def sharesPath (startShares annualChange : ℚ) (years : ℕ) : ℚ :=
  startShares * (1 + annualChange) ^ years

/-- The dict produced by _base_case_breakdown (lines 198-236). Fields that the
python code sets to np.nan on degeneracy have type Option with none for nan. -/
structure BaseBreakdown where
  enterprise_value : ℚ
  equity_value : ℚ
  equity_value_per_share : Option ℚ
  pv_explicit_period : ℚ
  pv_terminal_value : ℚ
  terminal_value_gordon : ℚ
  terminal_value_share_of_ev : Option ℚ
  fcf_projections : List ℚ
  pv_fcf_projections : List ℚ
  terminal_fcf_year : ℚ
  shares_end_year : ℚ
deriving DecidableEq

/-- The _base_case_breakdown method (lines 198-236). The terminal FCF is
fcf[-1]; validated calls have years at least 3 so the list is never empty and
the default of getLastD is never consulted. -/
def baseCaseBreakdown (baseFcf g wacc tg : ℚ) (years : ℕ)
    (sharesOut annualShareChange : ℚ) (bridge : CapitalBridge) : BaseBreakdown :=
  let fcf := projectFcf baseFcf g years
  let pvExplicit := pvSeries fcf wacc
  let terminalFcf := fcf.getLastD 0
  let tv := terminalValue terminalFcf wacc tg
  let pvTv := tv / (1 + wacc) ^ years
  let ev := pvExplicit.sum + pvTv
  let equity := ev - bridge.net_debt + bridge.non_operating_assets
      - bridge.minority_interest + bridge.other_adjustments
  let endShares := sharesPath sharesOut annualShareChange years
  { enterprise_value := ev
    equity_value := equity
    equity_value_per_share := if 0 < endShares then some (equity / endShares) else none
    pv_explicit_period := pvExplicit.sum
    pv_terminal_value := pvTv
    terminal_value_gordon := tv
    terminal_value_share_of_ev := if 0 < ev then some (pvTv / ev) else none
    fcf_projections := fcf
    pv_fcf_projections := pvExplicit
    terminal_fcf_year := terminalFcf
    shares_end_year := endShares }

/-- The per-trial random draws of _monte_carlo_vectorized (lines 254-283): each
field holds, at index i, the value numpy sampled for trial i. The draws are
arbitrary: theorems quantify over all of them. fcfMult is the lognormal factor
exp(np.random.normal(0, log(1+sigma))), always positive in the source. -/
structure Draws where
  recession : ℕ → Bool
  coreG : ℕ → ℚ
  tailG : ℕ → ℚ
  coreW : ℕ → ℚ
  tailW : ℕ → ℚ
  tgDraw : ℕ → ℚ
  fcfMult : ℕ → ℚ

/-- Trial growth resolution (lines 258-262): recession override then clip. -/
def mcGrowth (baseGrowth coreG tailG : ℚ) (inRecession : Bool) : ℚ :=
  let g := if inRecession then min coreG (baseGrowth - 3 / 100)
           else 7 / 10 * coreG + 3 / 10 * tailG
  clip g (-3 / 10) (4 / 10)

/-- Trial WACC resolution (lines 266-271): blend, recession bump, clip. -/
def mcWacc (coreW tailW : ℚ) (inRecession : Bool) : ℚ :=
  let w0 := 7 / 10 * coreW + 3 / 10 * tailW
  let w1 := if inRecession then w0 + 1 / 100 else w0
  clip w1 (5 / 100) (20 / 100)

/-- Trial terminal growth resolution (lines 275-277): clip to [0.005, 0.04]
then force to at most wacc - 1e-4. -/
def mcTg (tgDraw w : ℚ) : ℚ :=
  min (clip tgDraw (5 / 1000) (4 / 100)) (w - 1 / 10000)

/-- Trial base FCF draw (lines 281-285): lognormal factor, recession cut. -/
def mcBaseDraw (baseFcf fcfMult : ℚ) (inRecession : Bool) : ℚ :=
  let d := baseFcf * fcfMult
  if inRecession then d * (9 / 10) else d

/-- One row of the vectorized valuation (lines 288-305): trial i of the Monte
Carlo equity value, before division by the share count. -/
def mcTrialEquity (baseFcf baseGrowth : ℚ) (years : ℕ) (bridge : CapitalBridge)
    (d : Draws) (i : ℕ) : ℚ :=
  let g := mcGrowth baseGrowth (d.coreG i) (d.tailG i) (d.recession i)
  let w := mcWacc (d.coreW i) (d.tailW i) (d.recession i)
  let tg := mcTg (d.tgDraw i) w
  let base := mcBaseDraw baseFcf (d.fcfMult i) (d.recession i)
  let fcfPath := projectFcf base g years
  let pvExplicit := (pvSeries fcfPath w).sum
  let terminalFcf := fcfPath.getLastD 0
  let tv := terminalFcf * (1 + tg) / (w - tg)
  let pvTv := tv / (1 + w) ^ years
  let ev := pvExplicit + pvTv
  ev - bridge.net_debt + bridge.non_operating_assets
    - bridge.minority_interest + bridge.other_adjustments

/-- The _monte_carlo_vectorized method (lines 240-326), returning the per-share
array. When end_shares is not positive the source assigns the SCALAR float nan
to per_share (line 308); the details loop then evaluates per_share[i] (line 322)
which raises TypeError for any n of at least 1, and for n = 0 the subsequent
_summarize_mc call evaluates per_share.size which raises AttributeError. Either
way an exception escapes, modelled as Err.typeError. The base_wacc and base_tg
parameters of the source only locate the sampling distributions, which are
modelled by the Draws fields, so they do not appear here. The detail-sample
list (lines 312-324) records already-computed values and is not modelled. -/
def monteCarloVectorized (baseFcf baseGrowth : ℚ) (years : ℕ)
    (shares annualShareChange : ℚ) (bridge : CapitalBridge) (n : ℕ)
    (d : Draws) : Except Err (List (Option ℚ)) :=
  if 0 < sharesPath shares annualShareChange years then
    .ok ((List.range n).map
      (fun i => some (mcTrialEquity baseFcf baseGrowth years bridge d i /
        sharesPath shares annualShareChange years)))
  else .error .typeError

/-- Sorting as performed inside np.median and np.percentile. -/
def sortQ (l : List ℚ) : List ℚ := List.insertionSort (fun a b => a ≤ b) l

/-- np.mean: arithmetic mean. -/
def npMean (l : List ℚ) : ℚ := l.sum / l.length

/-- np.median: mean of the two middle entries of the sorted data (they coincide
for odd length). -/
def npMedian (l : List ℚ) : ℚ :=
  ((sortQ l).getD (((sortQ l).length - 1) / 2) 0 +
    (sortQ l).getD ((sortQ l).length / 2) 0) / 2

/-- np.std squared: the population variance. The standard deviation itself is
the square root of this quantity, which is irrational in general; the embedding
records its square, an order-preserving change of scale. -/
def npVarPop (l : List ℚ) : ℚ :=
  (l.map (fun x => (x - npMean l) ^ 2)).sum / l.length

/-- Linear-interpolation kernel of np.percentile on already-sorted data s at
fractional index h: with i = floor h, returns s[i] + (h - i) * (s[i+1] - s[i]),
falling back to the last element when i + 1 is out of range. -/
def interpAt (s : List ℚ) (h : ℚ) : ℚ :=
  if (Int.floor h).toNat + 1 < s.length then
    s.getD (Int.floor h).toNat 0 +
      (h - ((Int.floor h).toNat : ℚ)) *
        (s.getD ((Int.floor h).toNat + 1) 0 - s.getD (Int.floor h).toNat 0)
  else s.getD (s.length - 1) 0

/-- np.percentile with the default linear interpolation: fractional index
q * (n - 1) / 100 into the sorted data. -/
def npPercentile (l : List ℚ) (q : ℚ) : ℚ :=
  interpAt (sortQ l) (q * ((l.length : ℚ) - 1) / 100)

/-- np.min: the least element, read off the sorted data. -/
def npMin (l : List ℚ) : ℚ := (sortQ l).getD 0 0

/-- np.max: the greatest element, read off the sorted data. -/
def npMax (l : List ℚ) : ℚ := (sortQ l).getD (l.length - 1) 0

/-- The dict produced by _summarize_mc (lines 328-347); none models np.nan.
The std field stores the square of the standard deviation (see npVarPop). -/
structure McSummary where
  mean : Option ℚ
  median : Option ℚ
  stdSq : Option ℚ
  p5 : Option ℚ
  p25 : Option ℚ
  p75 : Option ℚ
  p95 : Option ℚ
  min : Option ℚ
  max : Option ℚ
  count : ℕ
deriving DecidableEq

/-- The _summarize_mc method (lines 328-347): the guard per_share.size == 0 or
not isfinite(per_share).any() is equivalent to the finite (some-valued) entries
forming the empty list. -/
def summarizeMc (perShare : List (Option ℚ)) : McSummary :=
  if perShare.filterMap id = [] then
    { mean := none, median := none, stdSq := none, p5 := none, p25 := none,
      p75 := none, p95 := none, min := none, max := none, count := 0 }
  else
    { mean := some (npMean (perShare.filterMap id))
      median := some (npMedian (perShare.filterMap id))
      stdSq := some (npVarPop (perShare.filterMap id))
      p5 := some (npPercentile (perShare.filterMap id) 5)
      p25 := some (npPercentile (perShare.filterMap id) 25)
      p75 := some (npPercentile (perShare.filterMap id) 75)
      p95 := some (npPercentile (perShare.filterMap id) 95)
      min := some (npMin (perShare.filterMap id))
      max := some (npMax (perShare.filterMap id))
      count := (perShare.filterMap id).length }

/-- Sum of t * x_t over a list, t starting from the given year; this is the
vectorized np.sum(t * weights) of line 371 with t = arange(1, n+1). -/
def weightedYearSum : ℕ → List ℚ → ℚ
  | _, [] => 0
  | t, x :: xs => (t : ℚ) * x + weightedYearSum (t + 1) xs

/-- The duration computation of _diagnostics (lines 367-373): requires a
nonempty all-finite PV array (none models a non-finite entry); weights are
pv / sum(pv) when the sum is positive and all zero otherwise. -/
def durationYears (fcfPv : List (Option ℚ)) : Option ℚ :=
  if fcfPv ≠ [] ∧ ∀ x ∈ fcfPv, x ≠ none then
    some (weightedYearSum 1
      (if 0 < (fcfPv.filterMap id).sum then
        (fcfPv.filterMap id).map (fun x => x / (fcfPv.filterMap id).sum)
      else (fcfPv.filterMap id).map (fun _ => 0)))
  else none

/-- The Macaulay-style weighted average year of the spec sentence for the
duration: sum of t * PV_t over t = 1..n divided by the sum of the PV_t. -/
def macaulayDuration (pv : List ℚ) : ℚ :=
  weightedYearSum 1 pv / pv.sum

/-- Health flags appended by _diagnostics (lines 376-384). -/
inductive HealthFlag where
  | waccNotGreaterThanTerminalGrowth
  | enterpriseValueNonPositive
  | shortDuration
  | terminalValueDominant
deriving DecidableEq

/-- The dict produced by _diagnostics (lines 349-392). -/
structure Diagnostics where
  terminal_value_share : Option ℚ
  terminal_value_dominant : Bool
  duration_years : Option ℚ
  pv_explicit_to_pv_terminal : Option ℚ
  health_flags : List HealthFlag
deriving DecidableEq

/-- The _diagnostics method (lines 349-392). All base-case numbers are rational
in this model, so the isfinite checks on ev and terminal_share hold; the python
truthiness test on duration (line 381) makes duration 0.0 skip the short flag,
and a nan duration fails the comparison with 2.0, also skipping it. -/
def diagnostics (base : BaseBreakdown) (wacc tg : ℚ) : Diagnostics :=
  let ev := base.enterprise_value
  let pvTv := base.pv_terminal_value
  let tshare : Option ℚ := if 0 < ev then some (pvTv / ev) else none
  let tdom : Bool := match tshare with
    | some x => decide (7 / 10 < x)
    | none => false
  let dur := durationYears (base.pv_fcf_projections.map some)
  let flags : List HealthFlag :=
    (if wacc ≤ tg then [HealthFlag.waccNotGreaterThanTerminalGrowth] else []) ++
    (if ev ≤ 0 then [HealthFlag.enterpriseValueNonPositive] else []) ++
    (match dur with
      | some dv => if dv ≠ 0 ∧ dv < 2 then [HealthFlag.shortDuration] else []
      | none => []) ++
    (if tdom then [HealthFlag.terminalValueDominant] else [])
  { terminal_value_share := tshare
    terminal_value_dominant := tdom
    duration_years := dur
    pv_explicit_to_pv_terminal :=
      if 0 < pvTv then some (base.pv_explicit_period / pvTv) else none
    health_flags := flags }

/-- The assumptions echo of the result dict (lines 107-120). -/
structure AssumptionsEcho where
  base_fcf : ℚ
  growth_rate : ℚ
  wacc : ℚ
  terminal_growth : ℚ
  years : ℤ
  shares_outstanding_start : ℚ
  annual_share_change : ℚ
  treat_sbc_as_cash_cost : Bool
  sbc_percent_of_fcf : ℚ
  real_mode : Bool
  inflation : ℚ
  recession_prob : ℚ
deriving DecidableEq

/-- The keyword arguments of calculate_dcf_valuation (lines 43-57), with the
same defaults. -/
structure CalcInputs where
  fcfHistory : List ℚ
  fcfGrowthRate : ℚ
  wacc : ℚ := 1 / 10
  terminalGrowth : ℚ := 1 / 40
  sharesOutstanding : ℚ := 1000000000
  monteCarloRuns : ℕ := 1000
  years : ℤ := 5
  bridge : CapitalBridge := {}
  annualShareChange : ℚ := 0
  treatSbcAsCashCost : Bool := true
  sbcPercentOfFcf : ℚ := 0
  realMode : Bool := false
  inflation : ℚ := 3 / 100
  recessionProb : ℚ := 15 / 100
deriving DecidableEq

/-- The results dict assembled at lines 103-123. The mc_sample_scenarios list
replays already-computed per-trial values and is not inspected by any claim, so
it is not modelled. -/
structure ValuationResult where
  base_case : BaseBreakdown
  monte_carlo : McSummary
  diagnosticsOut : Diagnostics
  assumptions : AssumptionsEcho
deriving DecidableEq

/-- The base FCF after _pick_base_fcf and the stock-compensation adjustment of
lines 67-70, which is the value echoed as assumptions.base_fcf. -/
def resolvedBaseFcf (x : CalcInputs) : ℚ :=
  let b := pickBaseFcf x.fcfHistory
  if x.treatSbcAsCashCost ∧ 0 < x.sbcPercentOfFcf then b * (1 - x.sbcPercentOfFcf) else b

/-- The real-to-nominal conversion of lines 74-79: applied when real_mode is
set, identity otherwise. -/
def nominalRate (realMode : Bool) (rate inflation : ℚ) : ℚ :=
  if realMode then (1 + rate) * (1 + inflation) - 1 else rate

/-- The calculate_dcf_valuation method (lines 43-123): validation first, then
base FCF selection and SBC adjustment, real-to-nominal conversion, base case,
Monte Carlo, summary and diagnostics. The integer horizon is validated to lie
in [3, 10] before being used as an exponent, so the toNat conversion is exact
on every path that reaches it. -/
def calculateDcfValuation (x : CalcInputs) (d : Draws) : Except Err ValuationResult :=
  match validateInputs x.wacc x.terminalGrowth x.years with
  | .error e => .error e
  | .ok _ =>
    let baseFcf := resolvedBaseFcf x
    let gNom := nominalRate x.realMode x.fcfGrowthRate x.inflation
    let waccNom := nominalRate x.realMode x.wacc x.inflation
    let tgNom := nominalRate x.realMode x.terminalGrowth x.inflation
    let yearsN := x.years.toNat
    let base := baseCaseBreakdown baseFcf gNom waccNom tgNom yearsN
        x.sharesOutstanding x.annualShareChange x.bridge
    match monteCarloVectorized baseFcf gNom yearsN x.sharesOutstanding
        x.annualShareChange x.bridge x.monteCarloRuns d with
    | .error e => .error e
    | .ok mcVals =>
      .ok { base_case := base
            monte_carlo := summarizeMc mcVals
            diagnosticsOut := diagnostics base waccNom tgNom
            assumptions :=
              { base_fcf := baseFcf
                growth_rate := gNom
                wacc := waccNom
                terminal_growth := tgNom
                years := x.years
                shares_outstanding_start := x.sharesOutstanding
                annual_share_change := x.annualShareChange
                treat_sbc_as_cash_cost := x.treatSbcAsCashCost
                sbc_percent_of_fcf := x.sbcPercentOfFcf
                real_mode := x.realMode
                inflation := x.inflation
                recession_prob := x.recessionProb } }

/-- True when the run was rejected by _validate_inputs (a ValueError escaped
before any base-case or Monte Carlo work). -/
def validationErrored (r : Except Err ValuationResult) : Bool :=
  match r with
  | .error (.validation _) => true
  | _ => false

/-- Modelled from the spec: the seeded pseudo-random generator. The generator
itself is numpy library code outside this repository; the spec relies only on
its stream of draws being a deterministic function of the seed, which the
definition below has by construction (the particular values are immaterial). -/
def seededDraws (seed : ℕ) : Draws :=
  { recession := fun i => decide ((seed + i) % 5 = 0)
    coreG := fun i => ((seed + 3 * i) % 11 : ℕ) / 100
    tailG := fun i => ((seed + 7 * i) % 13 : ℕ) / 100
    coreW := fun i => ((seed + 2 * i) % 17 : ℕ) / 100
    tailW := fun i => ((seed + 5 * i) % 19 : ℕ) / 100
    tgDraw := fun i => ((seed + 4 * i) % 23 : ℕ) / 1000
    fcfMult := fun i => 1 + ((seed + 6 * i) % 29 : ℕ) / 100 }

/-- A fixed deterministic draw bundle used for concrete evaluations. -/
def unitDraws : Draws :=
  { recession := fun _ => false
    coreG := fun _ => 5 / 100
    tailG := fun _ => 5 / 100
    coreW := fun _ => 1 / 10
    tailW := fun _ => 1 / 10
    tgDraw := fun _ => 3 / 100
    fcfMult := fun _ => 1 }

/-- Inputs accepted by validation whose projected end-of-horizon share count is
1000 * (1 - 1)^5 = 0: the buyback rate -1 wipes out the share count. -/
def c1Inputs : CalcInputs :=
  { fcfHistory := [100], fcfGrowthRate := 5 / 100, wacc := 1 / 10,
    terminalGrowth := 3 / 100, sharesOutstanding := 1000, monteCarloRuns := 10,
    years := 5, annualShareChange := -1 }

/-- Concrete scenario A of the spec: FCF history [100, 110, 121, 133.1],
growth 0.05, WACC 0.10, terminal growth 0.03, shares 1000, horizon 5, no bridge
adjustments. -/
def scenarioA : BaseBreakdown :=
  baseCaseBreakdown (pickBaseFcf [100, 110, 121, 1331 / 10]) (5 / 100) (1 / 10)
    (3 / 100) 5 1000 0 {}

/-- Inputs accepted by validation with the stock-compensation adjustment
enabled at percentage 1. -/
def c5Inputs : CalcInputs :=
  { fcfHistory := [100], fcfGrowthRate := 5 / 100, wacc := 1 / 10,
    terminalGrowth := 3 / 100, sharesOutstanding := 1000, monteCarloRuns := 1,
    years := 3, sbcPercentOfFcf := 1 }

/-- An accepted base case (growth -2) whose explicit-period PV array is all
finite with a negative sum. -/
def c6Base : BaseBreakdown :=
  baseCaseBreakdown (pickBaseFcf [100]) (-2) (1 / 10) (3 / 100) 3 1000 0 {}

/-- Small accepted inputs used to instantiate the reproducibility theorem. -/
def c9Inputs : CalcInputs :=
  { fcfHistory := [100], fcfGrowthRate := 5 / 100, monteCarloRuns := 2, years := 3 }

/- ------------------------------------------------------------------ -/
/- Theorems. -/
/- ------------------------------------------------------------------ -/

/-- C2: for every draw of every Monte Carlo trial, the resolved terminal growth
is forced to at most the resolved WACC minus 1e-4, so the Gordon denominator
wacc - tg is at least 1e-4 and in particular WACC strictly exceeds terminal
growth. This holds for all assumptions, validated or not, and for every trial. -/
theorem C2_mc_wacc_exceeds_terminal_growth (coreW tailW tgDraw : ℚ) (inRecession : Bool) :
    mcTg tgDraw (mcWacc coreW tailW inRecession) ≤ mcWacc coreW tailW inRecession - 1 / 10000 ∧
    1 / 10000 ≤ mcWacc coreW tailW inRecession - mcTg tgDraw (mcWacc coreW tailW inRecession) ∧
    mcTg tgDraw (mcWacc coreW tailW inRecession) < mcWacc coreW tailW inRecession := by
  have h : mcTg tgDraw (mcWacc coreW tailW inRecession) ≤
      mcWacc coreW tailW inRecession - 1 / 10000 := by
    unfold mcTg
    exact min_le_right _ _
  exact ⟨h, by linarith, by linarith⟩

/-- Helper: _validate_inputs fails with a ValueError exactly when the horizon is
outside [3, 10], WACC is at most terminal growth, or either rate is negative. -/
theorem validateInputs_error_iff (w tg : ℚ) (y : ℤ) :
    (∃ k, validateInputs w tg y = .error (.validation k)) ↔
      (y < 3 ∨ 10 < y ∨ w ≤ tg ∨ w < 0 ∨ tg < 0) := by
  unfold validateInputs
  split_ifs with h1 h2 h3
  · exact ⟨fun _ => by rcases h1 with h | h; exacts [Or.inl h, Or.inr (Or.inl h)],
      fun _ => ⟨_, rfl⟩⟩
  · exact ⟨fun _ => Or.inr (Or.inr (Or.inl h2)), fun _ => ⟨_, rfl⟩⟩
  · exact ⟨fun _ => by
      rcases h3 with h | h
      exacts [Or.inr (Or.inr (Or.inr (Or.inl h))), Or.inr (Or.inr (Or.inr (Or.inr h)))],
      fun _ => ⟨_, rfl⟩⟩
  · constructor
    · rintro ⟨k, hk⟩
      exact hk.elim
    · intro hc
      exfalso
      rcases hc with hc | hc | hc | hc | hc
      · exact h1 (Or.inl hc)
      · exact h1 (Or.inr hc)
      · exact h2 hc
      · exact h3 (Or.inl hc)
      · exact h3 (Or.inr hc)

/-- Helper: when validation passes it returns the unit value. -/
theorem validateInputs_ok (w tg : ℚ) (y : ℤ)
    (h : ¬(y < 3 ∨ 10 < y ∨ w ≤ tg ∨ w < 0 ∨ tg < 0)) :
    validateInputs w tg y = .ok () := by
  push_neg at h
  obtain ⟨h1, h2, h3, h4, h5⟩ := h
  unfold validateInputs
  rw [if_neg (by push_neg; exact ⟨h1, by omega⟩), if_neg (by push_neg; exact h3),
    if_neg (by push_neg; exact ⟨h4, h5⟩)]

/-- Helper: when validation passes, no validation error escapes the engine
(whatever the Monte Carlo stage does). -/
theorem validationErrored_false_of_ok (x : CalcInputs) (d : Draws)
    (h : validateInputs x.wacc x.terminalGrowth x.years = .ok ()) :
    validationErrored (calculateDcfValuation x d) = false := by
  unfold calculateDcfValuation
  rw [h]
  dsimp only
  unfold monteCarloVectorized
  by_cases hs : 0 < sharesPath x.sharesOutstanding x.annualShareChange x.years.toNat
  · rw [if_pos hs]
    rfl
  · rw [if_neg hs]
    rfl

/-- C3: calculate_dcf_valuation surfaces a validation error - raised by
_validate_inputs before the base case or the Monte Carlo engine runs - exactly
when the horizon is outside [3, 10], or WACC is at most terminal growth, or
WACC or terminal growth is negative; horizons 3 and 10 are accepted, horizons
2 and 11 are rejected, and WACC equal to terminal growth is rejected. -/
theorem C3_validation_error_iff :
    (∀ (x : CalcInputs) (d : Draws),
      validationErrored (calculateDcfValuation x d) = true ↔
        (x.years < 3 ∨ 10 < x.years ∨ x.wacc ≤ x.terminalGrowth ∨ x.wacc < 0 ∨
          x.terminalGrowth < 0)) ∧
    validateInputs (1 / 10) (3 / 100) 3 = .ok () ∧
    validateInputs (1 / 10) (3 / 100) 10 = .ok () ∧
    validateInputs (1 / 10) (3 / 100) 2 = .error (.validation .invalidHorizon) ∧
    validateInputs (1 / 10) (3 / 100) 11 = .error (.validation .invalidHorizon) ∧
    ∀ w : ℚ, validateInputs w w 5 = .error (.validation .waccNotGreaterThanTerminalGrowth) := by
  refine ⟨?_, by with_unfolding_all rfl, by with_unfolding_all rfl,
    by with_unfolding_all rfl, by with_unfolding_all rfl, ?_⟩
  · intro x d
    constructor
    · intro hv
      by_contra hc
      rw [validationErrored_false_of_ok x d (validateInputs_ok _ _ _ hc)] at hv
      exact Bool.false_ne_true hv
    · intro hc
      rcases (validateInputs_error_iff x.wacc x.terminalGrowth x.years).2 hc with ⟨k, hk⟩
      unfold calculateDcfValuation
      rw [hk]
      rfl
  · intro w
    unfold validateInputs
    rw [if_neg (by omega), if_pos (le_refl w)]

/-- C1 (code-bug witness): the inputs c1Inputs pass validation and project an
end-of-horizon share count of exactly 0, and on them the engine raises the
runtime type fault of the scalar-nan per_share path instead of returning ten
NaN valuations. -/
theorem C1_typeError_on_nonpositive_shares :
    validateInputs c1Inputs.wacc c1Inputs.terminalGrowth c1Inputs.years = .ok () ∧
    sharesPath c1Inputs.sharesOutstanding c1Inputs.annualShareChange 5 = 0 ∧
    calculateDcfValuation c1Inputs unitDraws = .error .typeError := by
  exact ⟨by with_unfolding_all rfl, by with_unfolding_all decide, by with_unfolding_all rfl⟩

/-- C4: on concrete scenario A the base FCF is exactly 133.1 and the explicit
present value, Gordon terminal value, discounted terminal value, enterprise
value and per-share equity value each lie within 0.5 percent of the values the
spec states. -/
theorem C4_scenarioA_base_case :
    pickBaseFcf [100, 110, 121, 1331 / 10] = 1331 / 10 ∧
    |scenarioA.pv_explicit_period - 58012 / 100| ≤ 58012 / 100 * (1 / 200) ∧
    |scenarioA.terminal_value_gordon - 249956 / 100| ≤ 249956 / 100 * (1 / 200) ∧
    |scenarioA.pv_terminal_value - 155235 / 100| ≤ 155235 / 100 * (1 / 200) ∧
    |scenarioA.enterprise_value - 213247 / 100| ≤ 213247 / 100 * (1 / 200) ∧
    scenarioA.equity_value_per_share = some (scenarioA.equity_value / 1000) ∧
    |scenarioA.equity_value / 1000 - 213 / 100| ≤ 213 / 100 * (1 / 200) := by
  have h5 : List.range 5 = [0, 1, 2, 3, 4] := by decide
  have hpick : pickBaseFcf [100, 110, 121, 1331 / 10] = 1331 / 10 := by
    set_option maxRecDepth 2000 in with_unfolding_all decide
  have hA : scenarioA =
      { enterprise_value := 375249 / 176
        equity_value := 375249 / 176
        equity_value_per_share := some (375249 / 176000)
        pv_explicit_period := 22460151 / 38720
        pv_terminal_value := 60094629 / 38720
        terminal_value_gordon := 79985951199 / 32000000
        terminal_value_share_of_ev := some (2861649 / 3931180)
        fcf_projections := [27951 / 200, 586971 / 4000, 12326391 / 80000,
          258854211 / 1600000, 5435938431 / 32000000]
        pv_fcf_projections := [2541 / 20, 4851 / 40, 9261 / 80, 194481 / 1760,
          4084101 / 38720]
        terminal_fcf_year := 5435938431 / 32000000
        shares_end_year := 1000 } := by
    simp only [scenarioA, baseCaseBreakdown, hpick, projectFcf, pvSeries, pvSeriesFrom,
      terminalValue, sharesPath, h5, List.map_cons, List.map_nil, List.sum_cons,
      List.sum_nil, List.getLastD]
    norm_num
  refine ⟨hpick, ?_, ?_, ?_, ?_, ?_, ?_⟩ <;> rw [hA]
  · exact abs_le.2 ⟨by norm_num, by norm_num⟩
  · exact abs_le.2 ⟨by norm_num, by norm_num⟩
  · exact abs_le.2 ⟨by norm_num, by norm_num⟩
  · exact abs_le.2 ⟨by norm_num, by norm_num⟩
  · norm_num
  · exact abs_le.2 ⟨by norm_num, by norm_num⟩

/-- C9: two runs of the engine with the same seeded generator and the same
inputs agree on the full Monte Carlo summary. The engine is a pure function of
the seed-determined draw stream and the inputs, so equal seeds and equal inputs
force equal summaries. -/
theorem C9_reproducibility (s1 s2 : ℕ) (x1 x2 : CalcInputs)
    (hs : s1 = s2) (hx : x1 = x2) :
    (calculateDcfValuation x1 (seededDraws s1)).map ValuationResult.monte_carlo =
      (calculateDcfValuation x2 (seededDraws s2)).map ValuationResult.monte_carlo := by
  subst hs
  subst hx
  rfl

/-- Witness for C9 at seed 42 on concrete inputs. -/
theorem C9_reproducibility_witness :
    (calculateDcfValuation c9Inputs (seededDraws 42)).map ValuationResult.monte_carlo =
      (calculateDcfValuation c9Inputs (seededDraws 42)).map ValuationResult.monte_carlo :=
  C9_reproducibility 42 42 c9Inputs c9Inputs rfl rfl

/-- Helper: _pick_base_fcf always returns a strictly positive value. -/
theorem pickBaseFcf_pos (l : List ℚ) : 0 < pickBaseFcf l := by
  unfold pickBaseFcf
  cases hl : l.getLast? with
  | none =>
    show (0 : ℚ) < 1000000000
    norm_num
  | some x =>
    dsimp only
    by_cases hx : 0 < x
    · rw [if_pos hx]
      exact hx
    · rw [if_neg hx]
      cases hm : (l.filter (fun y => 0 < y)).maximum with
      | bot =>
        show (0 : ℚ) < 1000000000
        norm_num
      | coe m =>
        have hmem : m ∈ l.filter (fun y => 0 < y) := List.maximum_mem hm
        have h2 := List.of_mem_filter hmem
        show (0 : ℚ) < m
        simpa using h2

/-- C7: base FCF selection. On an empty history the result is exactly 1e9; on a
nonempty history with positive last element it is that element; when the last
element is not positive it is the greatest positive element of the history when
one exists (a member of the history, positive, and at least every positive
member), and exactly 1e9 when no positive element exists. -/
theorem C7_pick_base_fcf_selection (l : List ℚ) (x : ℚ) :
    pickBaseFcf [] = 1000000000 ∧
    (l.getLast? = some x → 0 < x → pickBaseFcf l = x) ∧
    (l.getLast? = some x → ¬ 0 < x → (∃ y ∈ l, 0 < y) →
      pickBaseFcf l ∈ l ∧ 0 < pickBaseFcf l ∧ ∀ y ∈ l, 0 < y → y ≤ pickBaseFcf l) ∧
    (l.getLast? = some x → ¬ 0 < x → (∀ y ∈ l, ¬ 0 < y) → pickBaseFcf l = 1000000000) := by
  refine ⟨rfl, ?_, ?_, ?_⟩
  · intro hl hx
    unfold pickBaseFcf
    rw [hl]
    dsimp only
    rw [if_pos hx]
  · intro hl hx hex
    unfold pickBaseFcf
    rw [hl]
    dsimp only
    rw [if_neg hx]
    rcases hex with ⟨y, hy, hy0⟩
    have hyf : y ∈ l.filter (fun z => 0 < z) := List.mem_filter.2 ⟨hy, by simpa using hy0⟩
    cases hm : (l.filter (fun z => 0 < z)).maximum with
    | bot =>
      rw [List.maximum_eq_bot] at hm
      rw [hm] at hyf
      exact absurd hyf (List.not_mem_nil y)
    | coe m =>
      have hmem : m ∈ l.filter (fun z => 0 < z) := List.maximum_mem hm
      refine ⟨List.mem_of_mem_filter hmem, by simpa using List.of_mem_filter hmem, ?_⟩
      intro z hz hz0
      exact List.le_maximum_of_mem (List.mem_filter.2 ⟨hz, by simpa using hz0⟩) hm
  · intro hl hx hall
    unfold pickBaseFcf
    rw [hl]
    dsimp only
    rw [if_neg hx]
    have hfil : l.filter (fun z => 0 < z) = [] := by
      rw [List.filter_eq_nil_iff]
      intro a ha
      simpa using hall a ha
    rw [hfil]
    rfl

/-- Witness for C7 on the history [5, -1]: the last element is not positive, so
the greatest positive element 5 is selected. -/
theorem C7_pick_base_fcf_selection_witness :
    pickBaseFcf [5, -1] ∈ [(5 : ℚ), -1] ∧ 0 < pickBaseFcf [5, -1] ∧
      ∀ y ∈ [(5 : ℚ), -1], 0 < y → y ≤ pickBaseFcf [5, -1] :=
  (C7_pick_base_fcf_selection [5, -1] (-1)).2.2.1 rfl (by norm_num)
    ⟨5, by simp, by norm_num⟩

/-- C5 counterexample: the call c5Inputs (stock-compensation adjustment enabled
with percentage 1) is accepted by validation and completes, yet the base FCF it
echoes in the result assumptions is 0, which is not strictly positive. -/
theorem C5_counterexample_sbc_one :
    (calculateDcfValuation c5Inputs unitDraws).map (fun r => r.assumptions.base_fcf) =
      .ok 0 ∧ ¬ ((0 : ℚ) < 0) := by
  constructor
  · set_option maxRecDepth 2000 in with_unfolding_all rfl
  · norm_num

/-- C5 as amended: whenever the stock-compensation percentage is below 1 (or
the adjustment is disabled), the resolved base FCF is strictly positive, and it
is exactly the value echoed in the assumptions of any result the engine
returns. -/
theorem C5_amended_resolved_base_fcf_pos (x : CalcInputs) (d : Draws)
    (h : x.sbcPercentOfFcf < 1 ∨ x.treatSbcAsCashCost = false) :
    0 < resolvedBaseFcf x ∧
      ∀ r, calculateDcfValuation x d = .ok r →
        r.assumptions.base_fcf = resolvedBaseFcf x := by
  constructor
  · unfold resolvedBaseFcf
    by_cases hc : x.treatSbcAsCashCost = true ∧ 0 < x.sbcPercentOfFcf
    · rw [if_pos hc]
      rcases h with h1 | h1
      · exact mul_pos (pickBaseFcf_pos _) (by linarith)
      · rw [h1] at hc
        exact absurd hc.1 (by simp)
    · rw [if_neg hc]
      exact pickBaseFcf_pos _
  · intro r hr
    unfold calculateDcfValuation at hr
    cases hv : validateInputs x.wacc x.terminalGrowth x.years with
    | error e =>
      rw [hv] at hr
      exact absurd hr (by simp)
    | ok u =>
      rw [hv] at hr
      dsimp only at hr
      cases hmc : monteCarloVectorized (resolvedBaseFcf x)
          (nominalRate x.realMode x.fcfGrowthRate x.inflation) x.years.toNat
          x.sharesOutstanding x.annualShareChange x.bridge x.monteCarloRuns d with
      | error e =>
        rw [hmc] at hr
        exact absurd hr (by simp)
      | ok v =>
        rw [hmc] at hr
        rw [Except.ok.injEq] at hr
        subst hr
        rfl

/-- Witness for C5 as amended: default inputs with the default percentage 0. -/
theorem C5_amended_resolved_base_fcf_pos_witness :
    0 < resolvedBaseFcf { fcfHistory := [100], fcfGrowthRate := 5 / 100 } :=
  (C5_amended_resolved_base_fcf_pos { fcfHistory := [100], fcfGrowthRate := 5 / 100 }
    unitDraws (Or.inl (by norm_num))).1

/-- Helper: dividing every entry by s divides the weighted year sum by s. -/
theorem weightedYearSum_map_div (v : List ℚ) (s : ℚ) :
    ∀ t, weightedYearSum t (v.map (fun x => x / s)) = weightedYearSum t v / s := by
  induction v with
  | nil =>
    intro t
    simp [weightedYearSum]
  | cons a as ih =>
    intro t
    simp only [List.map_cons, weightedYearSum, ih, add_div, mul_div_assoc]

/-- Helper: the weighted year sum of an all-zero weight list is 0. -/
theorem weightedYearSum_map_zero (v : List ℚ) :
    ∀ t, weightedYearSum t (v.map (fun _ => (0 : ℚ))) = 0 := by
  induction v with
  | nil =>
    intro t
    rfl
  | cons a as ih =>
    intro t
    simp only [List.map_cons, weightedYearSum, ih]
    ring

/-- Generic fact: the duration field of _diagnostics is the duration computation
applied to the explicit-period PV array of the base case. -/
theorem diagnostics_duration_eq (b : BaseBreakdown) (w tg : ℚ) :
    (diagnostics b w tg).duration_years = durationYears (b.pv_fcf_projections.map some) :=
  rfl

/-- C6 counterexample: inputs accepted by validation (WACC 0.1, terminal growth
0.03, horizon 3, growth -2) produce an all-finite explicit-period PV array with
nonzero (negative) sum, on which the code returns duration 0 while the Macaulay
formula of the claim is nonzero - so the duration does not equal the formula
and no NaN clause of the claim applies. -/
theorem C6_counterexample_duration :
    validateInputs (1 / 10) (3 / 100) 3 = .ok () ∧
    c6Base.pv_fcf_projections = [-1000 / 11, 10000 / 121, -100000 / 1331] ∧
    (diagnostics c6Base (1 / 10) (3 / 100)).duration_years = some 0 ∧
    c6Base.pv_fcf_projections.sum ≠ 0 ∧
    macaulayDuration c6Base.pv_fcf_projections ≠ 0 := by
  have h3 : List.range 3 = [0, 1, 2] := by decide
  have hpick : pickBaseFcf [100] = 100 := by with_unfolding_all decide
  have hpv : c6Base.pv_fcf_projections = [-1000 / 11, 10000 / 121, -100000 / 1331] := by
    simp only [c6Base, baseCaseBreakdown, hpick, projectFcf, pvSeries, pvSeriesFrom, h3,
      List.map_cons, List.map_nil]
    norm_num
  refine ⟨by with_unfolding_all rfl, hpv, ?_, ?_, ?_⟩
  · rw [diagnostics_duration_eq, hpv]
    have hL : (([(-1000 : ℚ) / 11, 10000 / 121, -100000 / 1331].map some).filterMap id)
        = [-1000 / 11, 10000 / 121, -100000 / 1331] := by
      simp
    unfold durationYears
    rw [if_pos (by simp), hL, if_neg (by norm_num [List.sum_cons, List.sum_nil]),
      weightedYearSum_map_zero]
  · rw [hpv]
    norm_num
  · rw [hpv]
    unfold macaulayDuration weightedYearSum
    norm_num [weightedYearSum]

/-- C6 as amended: the diagnostics duration equals the Macaulay weighted
average year Sum(t * PV_t) / Sum(PV_t) whenever the PV array is nonempty, all
finite, and has positive sum; it is NaN when the array is empty or contains a
non-finite entry; and it is 0 (not NaN, not the formula) when the array is
nonempty, all finite, and its sum is zero or negative. -/
theorem C6_amended_duration (pv : List (Option ℚ)) :
    ((pv = [] ∨ ∃ x ∈ pv, x = none) → durationYears pv = none) ∧
    (pv ≠ [] → (∀ x ∈ pv, x ≠ none) → 0 < (pv.filterMap id).sum →
      durationYears pv = some (macaulayDuration (pv.filterMap id))) ∧
    (pv ≠ [] → (∀ x ∈ pv, x ≠ none) → (pv.filterMap id).sum ≤ 0 →
      durationYears pv = some 0) := by
  refine ⟨?_, ?_, ?_⟩
  · intro h
    unfold durationYears
    rw [if_neg]
    rintro ⟨hne, hall⟩
    rcases h with h | ⟨x, hx, hxn⟩
    · exact hne h
    · exact hall x hx hxn
  · intro hne hall hsum
    unfold durationYears
    rw [if_pos ⟨hne, hall⟩, if_pos hsum, weightedYearSum_map_div]
    rfl
  · intro hne hall hsum
    unfold durationYears
    rw [if_pos ⟨hne, hall⟩, if_neg (not_lt.2 hsum), weightedYearSum_map_zero]

/-- Witness for C6 as amended on the all-finite positive-sum array [1, 2]. -/
theorem C6_amended_duration_witness :
    durationYears [some 1, some 2] =
      some (macaulayDuration ([some (1 : ℚ), some 2].filterMap id)) :=
  (C6_amended_duration [some 1, some 2]).2.1 (by simp) (by simp)
    (by norm_num [List.filterMap])

/-- C8: summarizing a per-share array with no finite entry (empty or all-NaN)
yields every statistic NaN and count 0; otherwise every statistic is computed
on exactly the finite entries and count is the number of finite entries. -/
theorem C8_summarize_finite_only (l : List (Option ℚ)) :
    (l.filterMap id = [] →
      summarizeMc l =
        { mean := none
          median := none
          stdSq := none
          p5 := none
          p25 := none
          p75 := none
          p95 := none
          min := none
          max := none
          count := 0 }) ∧
    (l.filterMap id ≠ [] →
      summarizeMc l =
        { mean := some (npMean (l.filterMap id))
          median := some (npMedian (l.filterMap id))
          stdSq := some (npVarPop (l.filterMap id))
          p5 := some (npPercentile (l.filterMap id) 5)
          p25 := some (npPercentile (l.filterMap id) 25)
          p75 := some (npPercentile (l.filterMap id) 75)
          p95 := some (npPercentile (l.filterMap id) 95)
          min := some (npMin (l.filterMap id))
          max := some (npMax (l.filterMap id))
          count := (l.filterMap id).length }) := by
  constructor
  · intro h
    unfold summarizeMc
    rw [if_pos h]
  · intro h
    unfold summarizeMc
    rw [if_neg h]

/-- Witness for C8 on [some 2, none, some 4]: the two finite entries feed the
statistics and count is 2. -/
theorem C8_summarize_finite_only_witness :
    summarizeMc [some 2, none, some 4] =
      { mean := some (npMean [2, 4])
        median := some (npMedian [2, 4])
        stdSq := some (npVarPop [2, 4])
        p5 := some (npPercentile [2, 4] 5)
        p25 := some (npPercentile [2, 4] 25)
        p75 := some (npPercentile [2, 4] 75)
        p95 := some (npPercentile [2, 4] 95)
        min := some (npMin [2, 4])
        max := some (npMax [2, 4])
        count := 2 } :=
  (C8_summarize_finite_only [some 2, none, some 4]).2 (by decide)

/-- Helper: the sort used by the summary statistics is sorted. -/
theorem sortQ_sorted (l : List ℚ) : (sortQ l).Sorted (fun a b => a ≤ b) :=
  List.sorted_insertionSort _ l

/-- Helper: the sort is a permutation of its input. -/
theorem sortQ_perm (l : List ℚ) : (sortQ l).Perm l :=
  List.perm_insertionSort _ l

/-- Helper: sorting preserves length. -/
theorem sortQ_length (l : List ℚ) : (sortQ l).length = l.length :=
  (sortQ_perm l).length_eq

/-- Helper: sorting preserves the sum. -/
theorem sortQ_sum (l : List ℚ) : (sortQ l).sum = l.sum :=
  (sortQ_perm l).sum_eq

/-- Helper: sorting a nonempty list is nonempty. -/
theorem sortQ_ne_nil {l : List ℚ} (hne : l ≠ []) : sortQ l ≠ [] := by
  intro h
  have hp := sortQ_perm l
  rw [h] at hp
  exact hne hp.symm.eq_nil

/-- Helper: entries at increasing indices of a sorted list increase. -/
theorem sorted_getD_mono {s : List ℚ} (hs : s.Sorted (fun a b => a ≤ b))
    {i j : ℕ} (hij : i ≤ j) (hj : j < s.length) :
    s.getD i 0 ≤ s.getD j 0 := by
  have hi : i < s.length := lt_of_le_of_lt hij hj
  rw [List.getD_eq_getElem s 0 hi, List.getD_eq_getElem s 0 hj]
  have h2 : s.get ⟨i, hi⟩ ≤ s.get ⟨j, hj⟩ :=
    hs.rel_get_of_le (Fin.mk_le_mk.mpr hij)
  simpa [List.get_eq_getElem] using h2

/-- Helper: for nonnegative h, the natCast of toNat of the floor is the floor. -/
theorem floor_toNat_cast_q {h : ℚ} (hh : 0 ≤ h) :
    (((Int.floor h).toNat : ℕ) : ℚ) = ((Int.floor h : ℤ) : ℚ) := by
  norm_cast
  exact Int.toNat_of_nonneg (Int.floor_nonneg.mpr hh)

/-- Helper: the fractional part h - toNat(floor h) is nonnegative. -/
theorem sub_floor_toNat_nonneg {h : ℚ} (hh : 0 ≤ h) :
    0 ≤ h - ((Int.floor h).toNat : ℚ) := by
  rw [floor_toNat_cast_q hh]
  have h1 := Int.floor_le h
  linarith

/-- Helper: the fractional part h - toNat(floor h) is below one. -/
theorem sub_floor_toNat_lt_one {h : ℚ} (hh : 0 ≤ h) :
    h - ((Int.floor h).toNat : ℚ) < 1 := by
  rw [floor_toNat_cast_q hh]
  have h1 := Int.lt_floor_add_one h
  push_cast at h1
  linarith

/-- Helper: the floor index stays within the sorted range. -/
theorem floor_toNat_le {h : ℚ} {n : ℕ} (hub : h ≤ (n : ℚ) - 1) :
    (Int.floor h).toNat ≤ n - 1 := by
  have h1 : Int.floor h ≤ Int.floor ((n : ℚ) - 1) := Int.floor_mono hub
  have h2 : Int.floor ((n : ℚ) - 1) = (n : ℤ) - 1 := by
    rw [show ((n : ℚ) - 1) = (((n : ℤ) - 1 : ℤ) : ℚ) by push_cast; ring, Int.floor_intCast]
  omega

/-- Helper: the interpolation kernel at an integer index returns that entry. -/
theorem interpAt_natCast {s : List ℚ} (k : ℕ) (hk : k + 1 ≤ s.length) :
    interpAt s (k : ℚ) = s.getD k 0 := by
  unfold interpAt
  have hf : (Int.floor ((k : ℕ) : ℚ)).toNat = k := by
    rw [Int.floor_natCast]
    exact Int.toNat_natCast k
  rw [hf]
  by_cases hc : k + 1 < s.length
  · rw [if_pos hc]
    simp
  · rw [if_neg hc]
    have hlen : s.length = k + 1 := by omega
    rw [hlen]
    simp

/-- Helper: the interpolation kernel never exceeds the last sorted entry. -/
theorem interpAt_le_getD_last {s : List ℚ} (hs : s.Sorted (fun a b => a ≤ b))
    {h : ℚ} (hh : 0 ≤ h) :
    interpAt s h ≤ s.getD (s.length - 1) 0 := by
  unfold interpAt
  by_cases hc : (Int.floor h).toNat + 1 < s.length
  · rw [if_pos hc]
    have hii : s.getD (Int.floor h).toNat 0 ≤ s.getD ((Int.floor h).toNat + 1) 0 :=
      sorted_getD_mono hs (Nat.le_succ _) hc
    have hlast : s.getD ((Int.floor h).toNat + 1) 0 ≤ s.getD (s.length - 1) 0 :=
      sorted_getD_mono hs (by omega) (by omega)
    have hf1 := sub_floor_toNat_lt_one hh
    have key : (h - ((Int.floor h).toNat : ℚ)) *
        (s.getD ((Int.floor h).toNat + 1) 0 - s.getD (Int.floor h).toNat 0) ≤
        1 * (s.getD ((Int.floor h).toNat + 1) 0 - s.getD (Int.floor h).toNat 0) :=
      mul_le_mul_of_nonneg_right (le_of_lt hf1) (by linarith)
    linarith
  · rw [if_neg hc]

/-- Helper: the interpolation kernel is at least the first sorted entry. -/
theorem getD_zero_le_interpAt {s : List ℚ} (hs : s.Sorted (fun a b => a ≤ b))
    {h : ℚ} (hh : 0 ≤ h) :
    s.getD 0 0 ≤ interpAt s h := by
  unfold interpAt
  by_cases hc : (Int.floor h).toNat + 1 < s.length
  · rw [if_pos hc]
    have h0i : s.getD 0 0 ≤ s.getD (Int.floor h).toNat 0 :=
      sorted_getD_mono hs (Nat.zero_le _) (by omega)
    have hii : s.getD (Int.floor h).toNat 0 ≤ s.getD ((Int.floor h).toNat + 1) 0 :=
      sorted_getD_mono hs (Nat.le_succ _) hc
    have hf0 := sub_floor_toNat_nonneg hh
    have key : 0 ≤ (h - ((Int.floor h).toNat : ℚ)) *
        (s.getD ((Int.floor h).toNat + 1) 0 - s.getD (Int.floor h).toNat 0) :=
      mul_nonneg hf0 (by linarith)
    linarith
  · rw [if_neg hc]
    rcases Nat.eq_zero_or_pos s.length with h0 | h0
    · rw [List.length_eq_zero] at h0
      rw [h0]
      simp [List.getD]
    · exact sorted_getD_mono hs (Nat.zero_le _) (by omega)

/-- Helper: the interpolation kernel is monotone in the fractional index. -/
theorem interpAt_mono {s : List ℚ} (hs : s.Sorted (fun a b => a ≤ b))
    {h1 h2 : ℚ} (h1n : 0 ≤ h1) (h12 : h1 ≤ h2) :
    interpAt s h1 ≤ interpAt s h2 := by
  have h2n : 0 ≤ h2 := le_trans h1n h12
  have hil : (Int.floor h1).toNat ≤ (Int.floor h2).toNat :=
    Int.toNat_le_toNat (Int.floor_mono h12)
  by_cases hc2 : (Int.floor h2).toNat + 1 < s.length
  · have hc1 : (Int.floor h1).toNat + 1 < s.length := by omega
    have e1 : interpAt s h1 = s.getD (Int.floor h1).toNat 0 +
        (h1 - ((Int.floor h1).toNat : ℚ)) *
          (s.getD ((Int.floor h1).toNat + 1) 0 - s.getD (Int.floor h1).toNat 0) := by
      unfold interpAt
      rw [if_pos hc1]
    have e2 : interpAt s h2 = s.getD (Int.floor h2).toNat 0 +
        (h2 - ((Int.floor h2).toNat : ℚ)) *
          (s.getD ((Int.floor h2).toNat + 1) 0 - s.getD (Int.floor h2).toNat 0) := by
      unfold interpAt
      rw [if_pos hc2]
    rw [e1, e2]
    have hf10 := sub_floor_toNat_nonneg h1n
    have hf11 := sub_floor_toNat_lt_one h1n
    have hf20 := sub_floor_toNat_nonneg h2n
    have hAB1 : s.getD (Int.floor h1).toNat 0 ≤ s.getD ((Int.floor h1).toNat + 1) 0 :=
      sorted_getD_mono hs (Nat.le_succ _) hc1
    have hAB2 : s.getD (Int.floor h2).toNat 0 ≤ s.getD ((Int.floor h2).toNat + 1) 0 :=
      sorted_getD_mono hs (Nat.le_succ _) hc2
    rcases eq_or_lt_of_le hil with heq | hlt
    · rw [← heq]
      have hff : h1 - ((Int.floor h1).toNat : ℚ) ≤ h2 - ((Int.floor h1).toNat : ℚ) := by
        linarith
      have key := mul_le_mul_of_nonneg_right hff
        ((by linarith : (0 : ℚ) ≤
          s.getD ((Int.floor h1).toNat + 1) 0 - s.getD (Int.floor h1).toNat 0))
      linarith
    · have hstep1 : s.getD (Int.floor h1).toNat 0 +
          (h1 - ((Int.floor h1).toNat : ℚ)) *
            (s.getD ((Int.floor h1).toNat + 1) 0 - s.getD (Int.floor h1).toNat 0) ≤
          s.getD ((Int.floor h1).toNat + 1) 0 := by
        have key := mul_le_mul_of_nonneg_right (le_of_lt hf11)
          ((by linarith : (0 : ℚ) ≤
            s.getD ((Int.floor h1).toNat + 1) 0 - s.getD (Int.floor h1).toNat 0))
        linarith
      have hstep2 : s.getD ((Int.floor h1).toNat + 1) 0 ≤ s.getD (Int.floor h2).toNat 0 :=
        sorted_getD_mono hs (by omega) (by omega)
      have hstep3 : s.getD (Int.floor h2).toNat 0 ≤ s.getD (Int.floor h2).toNat 0 +
          (h2 - ((Int.floor h2).toNat : ℚ)) *
            (s.getD ((Int.floor h2).toNat + 1) 0 - s.getD (Int.floor h2).toNat 0) := by
        have key := mul_nonneg hf20
          ((by linarith : (0 : ℚ) ≤
            s.getD ((Int.floor h2).toNat + 1) 0 - s.getD (Int.floor h2).toNat 0))
        linarith
      linarith
  · have e2 : interpAt s h2 = s.getD (s.length - 1) 0 := by
      unfold interpAt
      rw [if_neg hc2]
    rw [e2]
    exact interpAt_le_getD_last hs h1n

/-- Helper: the fractional rank of np.percentile is nonnegative for a nonempty
list and a nonnegative percentile. -/
theorem percentile_rank_nonneg {l : List ℚ} (hne : l ≠ []) {q : ℚ} (hq : 0 ≤ q) :
    0 ≤ q * ((l.length : ℚ) - 1) / 100 := by
  have hpos : 0 < l.length := List.length_pos.mpr hne
  have hlen1 : (1 : ℚ) ≤ (l.length : ℚ) := by exact_mod_cast hpos
  have := mul_nonneg hq (by linarith : (0 : ℚ) ≤ (l.length : ℚ) - 1)
  linarith

/-- Helper: np.percentile is monotone in the percentile rank. -/
theorem npPercentile_mono (l : List ℚ) (hne : l ≠ []) {q1 q2 : ℚ}
    (hq1 : 0 ≤ q1) (hq12 : q1 ≤ q2) :
    npPercentile l q1 ≤ npPercentile l q2 := by
  unfold npPercentile
  have hpos : 0 < l.length := List.length_pos.mpr hne
  have hlen1 : (1 : ℚ) ≤ (l.length : ℚ) := by exact_mod_cast hpos
  have h1n : 0 ≤ q1 * ((l.length : ℚ) - 1) / 100 := percentile_rank_nonneg hne hq1
  have hmul := mul_le_mul_of_nonneg_right hq12 (by linarith : (0 : ℚ) ≤ (l.length : ℚ) - 1)
  exact interpAt_mono (sortQ_sorted l) h1n (by linarith)

/-- Helper: np.median coincides with the 50th percentile under linear
interpolation. -/
theorem npMedian_eq_percentile_fifty (l : List ℚ) (hne : l ≠ []) :
    npMedian l = npPercentile l 50 := by
  unfold npMedian npPercentile
  have hslen : (sortQ l).length = l.length := sortQ_length l
  have hpos : 0 < l.length := List.length_pos.mpr hne
  have hh : (50 : ℚ) * ((l.length : ℚ) - 1) / 100 = ((l.length : ℚ) - 1) / 2 := by
    ring
  rw [hh, hslen]
  rcases Nat.even_or_odd l.length with he | ho
  · obtain ⟨k, hk⟩ := he
    have hk1 : 1 ≤ k := by omega
    have hhval : ((l.length : ℚ) - 1) / 2 = ((k : ℚ) - 1) + 1 / 2 := by
      rw [hk]
      push_cast
      ring
    have hfl : (Int.floor (((l.length : ℚ) - 1) / 2)).toNat = k - 1 := by
      rw [hhval]
      have hfloor : Int.floor (((k : ℚ) - 1) + 1 / 2) = (k : ℤ) - 1 := by
        rw [Int.floor_eq_iff]
        constructor
        · push_cast
          linarith
        · push_cast
          linarith
      rw [hfloor]
      omega
    have hidx1 : (l.length - 1) / 2 = k - 1 := by omega
    have hidx2 : l.length / 2 = k := by omega
    unfold interpAt
    rw [hfl, hidx1, hidx2]
    have hcond : k - 1 + 1 < (sortQ l).length := by omega
    rw [if_pos hcond]
    have hk2 : k - 1 + 1 = k := by omega
    rw [hk2]
    have hcast : ((k - 1 : ℕ) : ℚ) = (k : ℚ) - 1 := by
      rw [Nat.cast_sub hk1]
      norm_num
    rw [hcast, hhval]
    ring
  · obtain ⟨k, hk⟩ := ho
    have hhval : ((l.length : ℚ) - 1) / 2 = (k : ℚ) := by
      rw [hk]
      push_cast
      ring
    have hfl : (Int.floor (((l.length : ℚ) - 1) / 2)).toNat = k := by
      rw [hhval, Int.floor_natCast]
      exact Int.toNat_natCast k
    have hidx1 : (l.length - 1) / 2 = k := by omega
    have hidx2 : l.length / 2 = k := by omega
    unfold interpAt
    rw [hfl, hidx1, hidx2, hhval]
    by_cases hc : k + 1 < (sortQ l).length
    · rw [if_pos hc]
      ring
    · rw [if_neg hc]
      have hlen1 : (sortQ l).length - 1 = k := by omega
      rw [hlen1]
      ring

/-- Helper: np.min bounds every member from below. -/
theorem npMin_le_of_mem {l : List ℚ} {x : ℚ} (hx : x ∈ l) : npMin l ≤ x := by
  unfold npMin
  have hxs : x ∈ sortQ l := (sortQ_perm l).mem_iff.mpr hx
  obtain ⟨j, hj, hxe⟩ := List.getElem_of_mem hxs
  rw [← hxe, ← List.getD_eq_getElem (sortQ l) 0 hj]
  exact sorted_getD_mono (sortQ_sorted l) (Nat.zero_le _) hj

/-- Helper: np.max bounds every member from above. -/
theorem le_npMax_of_mem {l : List ℚ} {x : ℚ} (hx : x ∈ l) : x ≤ npMax l := by
  unfold npMax
  have hxs : x ∈ sortQ l := (sortQ_perm l).mem_iff.mpr hx
  have hslen : (sortQ l).length = l.length := sortQ_length l
  obtain ⟨j, hj, hxe⟩ := List.getElem_of_mem hxs
  rw [← hxe, ← List.getD_eq_getElem (sortQ l) 0 hj]
  exact sorted_getD_mono (sortQ_sorted l) (by omega) (by omega)

/-- Helper: np.min of a nonempty list is attained by a member. -/
theorem npMin_mem {l : List ℚ} (hne : l ≠ []) : npMin l ∈ l := by
  unfold npMin
  have hsne := sortQ_ne_nil hne
  have hpos : 0 < (sortQ l).length := List.length_pos.mpr hsne
  rw [List.getD_eq_getElem (sortQ l) 0 hpos]
  exact (sortQ_perm l).mem_iff.mp (List.getElem_mem hpos)

/-- Helper: np.max of a nonempty list is attained by a member. -/
theorem npMax_mem {l : List ℚ} (hne : l ≠ []) : npMax l ∈ l := by
  unfold npMax
  have hsne := sortQ_ne_nil hne
  have hpos : 0 < (sortQ l).length := List.length_pos.mpr hsne
  have hslen : (sortQ l).length = l.length := sortQ_length l
  have hidx : l.length - 1 < (sortQ l).length := by omega
  rw [List.getD_eq_getElem (sortQ l) 0 hidx]
  exact (sortQ_perm l).mem_iff.mp (List.getElem_mem hidx)

/-- Helper: the mean of a nonempty list is at least its minimum. -/
theorem npMin_le_npMean {l : List ℚ} (hne : l ≠ []) : npMin l ≤ npMean l := by
  unfold npMean
  have hpos : 0 < l.length := List.length_pos.mpr hne
  have hposq : 0 < (l.length : ℚ) := by exact_mod_cast hpos
  rw [le_div_iff₀ hposq]
  have hb : l.length • npMin l ≤ l.sum :=
    List.card_nsmul_le_sum l (npMin l) (fun x hx => npMin_le_of_mem hx)
  rw [nsmul_eq_mul] at hb
  rw [mul_comm]
  exact hb

/-- Helper: the mean of a nonempty list is at most its maximum. -/
theorem npMean_le_npMax {l : List ℚ} (hne : l ≠ []) : npMean l ≤ npMax l := by
  unfold npMean
  have hpos : 0 < l.length := List.length_pos.mpr hne
  have hposq : 0 < (l.length : ℚ) := by exact_mod_cast hpos
  rw [div_le_iff₀ hposq]
  have hb : l.sum ≤ l.length • npMax l :=
    List.sum_le_card_nsmul l (npMax l) (fun x hx => le_npMax_of_mem hx)
  rw [nsmul_eq_mul] at hb
  rw [mul_comm]
  exact hb

/-- C10: whenever the Monte Carlo summary has positive count, its order
statistics are mutually ordered (min at most p5 at most p25 at most median at
most p75 at most p95 at most max), the mean lies between min and max, and min
and max are finite (some-valued) and attained by finite entries of the
per-share array. -/
theorem C10_summary_statistics_ordered (l : List (Option ℚ))
    (h : 0 < (summarizeMc l).count) :
    (summarizeMc l).min.getD 0 ≤ (summarizeMc l).p5.getD 0 ∧
    (summarizeMc l).p5.getD 0 ≤ (summarizeMc l).p25.getD 0 ∧
    (summarizeMc l).p25.getD 0 ≤ (summarizeMc l).median.getD 0 ∧
    (summarizeMc l).median.getD 0 ≤ (summarizeMc l).p75.getD 0 ∧
    (summarizeMc l).p75.getD 0 ≤ (summarizeMc l).p95.getD 0 ∧
    (summarizeMc l).p95.getD 0 ≤ (summarizeMc l).max.getD 0 ∧
    (summarizeMc l).min.getD 0 ≤ (summarizeMc l).mean.getD 0 ∧
    (summarizeMc l).mean.getD 0 ≤ (summarizeMc l).max.getD 0 ∧
    (summarizeMc l).min = some ((summarizeMc l).min.getD 0) ∧
    (summarizeMc l).max = some ((summarizeMc l).max.getD 0) ∧
    (summarizeMc l).min.getD 0 ∈ l.filterMap id ∧
    (summarizeMc l).max.getD 0 ∈ l.filterMap id := by
  have hne : l.filterMap id ≠ [] := by
    intro hnil
    unfold summarizeMc at h
    rw [if_pos hnil] at h
    exact absurd h (by norm_num)
  unfold summarizeMc
  rw [if_neg hne]
  dsimp only [Option.getD_some]
  refine ⟨?_, ?_, ?_, ?_, ?_, ?_, ?_, ?_, rfl, rfl, ?_, ?_⟩
  · unfold npMin npPercentile
    exact getD_zero_le_interpAt (sortQ_sorted _)
      (percentile_rank_nonneg hne ((by norm_num : (0 : ℚ) ≤ 5)))
  · exact npPercentile_mono _ hne (by norm_num) (by norm_num)
  · rw [npMedian_eq_percentile_fifty _ hne]
    exact npPercentile_mono _ hne (by norm_num) (by norm_num)
  · rw [npMedian_eq_percentile_fifty _ hne]
    exact npPercentile_mono _ hne (by norm_num) (by norm_num)
  · exact npPercentile_mono _ hne (by norm_num) (by norm_num)
  · unfold npPercentile npMax
    have hgoal := interpAt_le_getD_last (sortQ_sorted (l.filterMap id))
      (percentile_rank_nonneg hne ((by norm_num : (0 : ℚ) ≤ 95)))
    rwa [sortQ_length] at hgoal
  · exact npMin_le_npMean hne
  · exact npMean_le_npMax hne
  · exact npMin_mem hne
  · exact npMax_mem hne

/-- Witness for C10 on the array [some 3, none, some 1, some 2] with three
finite entries. -/
theorem C10_summary_statistics_ordered_witness :
    (summarizeMc [some 3, none, some 1, some 2]).min.getD 0 ≤
      (summarizeMc [some 3, none, some 1, some 2]).p5.getD 0 ∧
    (summarizeMc [some 3, none, some 1, some 2]).p5.getD 0 ≤
      (summarizeMc [some 3, none, some 1, some 2]).p25.getD 0 ∧
    (summarizeMc [some 3, none, some 1, some 2]).p25.getD 0 ≤
      (summarizeMc [some 3, none, some 1, some 2]).median.getD 0 ∧
    (summarizeMc [some 3, none, some 1, some 2]).median.getD 0 ≤
      (summarizeMc [some 3, none, some 1, some 2]).p75.getD 0 ∧
    (summarizeMc [some 3, none, some 1, some 2]).p75.getD 0 ≤
      (summarizeMc [some 3, none, some 1, some 2]).p95.getD 0 ∧
    (summarizeMc [some 3, none, some 1, some 2]).p95.getD 0 ≤
      (summarizeMc [some 3, none, some 1, some 2]).max.getD 0 ∧
    (summarizeMc [some 3, none, some 1, some 2]).min.getD 0 ≤
      (summarizeMc [some 3, none, some 1, some 2]).mean.getD 0 ∧
    (summarizeMc [some 3, none, some 1, some 2]).mean.getD 0 ≤
      (summarizeMc [some 3, none, some 1, some 2]).max.getD 0 ∧
    (summarizeMc [some 3, none, some 1, some 2]).min =
      some ((summarizeMc [some 3, none, some 1, some 2]).min.getD 0) ∧
    (summarizeMc [some 3, none, some 1, some 2]).max =
      some ((summarizeMc [some 3, none, some 1, some 2]).max.getD 0) ∧
    (summarizeMc [some 3, none, some 1, some 2]).min.getD 0 ∈
      [some (3 : ℚ), none, some 1, some 2].filterMap id ∧
    (summarizeMc [some 3, none, some 1, some 2]).max.getD 0 ∈
      [some (3 : ℚ), none, some 1, some 2].filterMap id :=
  C10_summary_statistics_ordered [some 3, none, some 1, some 2] (by decide)

end Finsense
